import Mathlib

/-!
Shallow embedding of the ride-sharing discrete-event simulator
(`location.py`, `rider.py`, `driver.py`, `container.py`, `dispatcher.py`,
`event.py`) and proofs about it.

Entities (riders, drivers) are mutable Python objects aliased by events and
by the dispatcher; we model them as arenas (`List Rider`, `List Driver`)
addressed by stable indices, with events and the dispatcher registry
carrying indices.  Python integers are modelled by `Nat`/`Int`; a Python
call that raises (the unbound-variable branch of
`Dispatcher.request_driver`) is modelled by an `Option` returning `none`.
-/

namespace RideShare

/-! ### container.py: `PriorityQueue`

`PriorityQueue._items` is a plain list; `add` appends the item and re-sorts
with Python's `list.sort()` (Timsort, a *stable* sort, comparing with the
items' `__lt__`); `remove` pops index 0.  We model the item comparison by a
numeric key `key : α → Nat` (Python's `__lt__` on the queued items —
events compare by timestamp) and Python's stable sort by `pySort`:
insertion from the left into an accumulator, each insertion placing the new
element *after* every element whose key is not greater, which is exactly
the stable ascending order `list.sort()` produces. -/

/-- One stable-insertion step: insert `a` into `l` before the first element
whose key is strictly greater, i.e. after all elements with key `≤ key a`. -/
def insPy {α : Type} (key : α → Nat) (a : α) : List α → List α
  | [] => [a]
  | b :: l => if key a < key b then a :: b :: l else b :: insPy key a l

/-- Model of Python's stable `list.sort()` (ascending by `key`). -/
def pySort {α : Type} (key : α → Nat) (l : List α) : List α :=
  l.foldl (fun acc x => insPy key x acc) []

/-- `PriorityQueue.add`: drop a `None` item, otherwise append and re-sort
(`self._items.append(item); self._items.sort()`). -/
def PriorityQueue.add {α : Type} (key : α → Nat) (items : List α)
    (item : Option α) : List α :=
  match item with
  | none => items
  | some a => pySort key (items ++ [a])

/-- `PriorityQueue.remove`: `self._items.pop(0)`; popping an empty queue is
a precondition violation (IndexError), modelled as `none`. -/
def PriorityQueue.remove {α : Type} (items : List α) : Option (α × List α) :=
  match items with
  | [] => none
  | a :: rest => some (a, rest)

/-- `PriorityQueue.is_empty`: `len(self._items) == 0`. -/
def PriorityQueue.is_empty {α : Type} (items : List α) : Bool :=
  items.length == 0

/-- Successive `remove()` calls, driven by a fuel argument. -/
def PriorityQueue.drain {α : Type} (fuel : Nat) (items : List α) : List α :=
  match fuel with
  | 0 => []
  | fuel + 1 =>
    match PriorityQueue.remove items with
    | none => []
    | some (a, rest) => a :: PriorityQueue.drain fuel rest

/-! ### location.py -/

/-- `Location`: a pair of grid coordinates. -/
structure Location where
  m : Int
  n : Int
deriving DecidableEq, Repr

/-- `manhattan_distance(origin, destination)`:
`abs(o[0] - d[0]) + abs(o[1] - d[1])`. -/
def manhattan_distance (origin destination : Location) : Nat :=
  (origin.m - destination.m).natAbs + (origin.n - destination.n).natAbs

/-! ### rider.py -/

/-- The rider-status constants `WAITING`, `CANCELLED`, `SATISFIED`. -/
inductive RiderStatus where
  | waiting
  | cancelled
  | satisfied
deriving DecidableEq, Repr

/-- `Rider`: id, origin, destination, status (initially `WAITING`) and
patience. -/
structure Rider where
  rider_id : String
  origin : Location
  destination : Location
  status : RiderStatus
  patience : Nat
deriving DecidableEq, Repr

/-- Placeholder rider used to total the arena lookups; a Python run never
dereferences an invalid object reference, and the claims that depend on a
particular rider carry a validity hypothesis. -/
def dfltRider : Rider :=
  { rider_id := "", origin := ⟨0, 0⟩, destination := ⟨0, 0⟩,
    status := .waiting, patience := 0 }

/-! ### driver.py -/

/-- `Driver`: id, current location, speed, optional destination, idle flag
(initially `True`). -/
structure Driver where
  identifier : String
  location : Location
  speed : Nat
  destination : Option Location
  is_idle : Bool
deriving DecidableEq, Repr

/-- Placeholder driver (see `dfltRider`). -/
def dfltDriver : Driver :=
  { identifier := "", location := ⟨0, 0⟩, speed := 1,
    destination := none, is_idle := false }

/-- Python's `round()` (round half to even) applied to the exact rational
`num / den`, for non-negative integer `num` and positive `den`. -/
def roundHalfEven (num den : Nat) : Nat :=
  let q := num / den
  let r := num % den
  if 2 * r < den then q
  else if den < 2 * r then q + 1
  else if q % 2 = 0 then q else q + 1

/-- `Driver.get_travel_time(destination)`:
`manhattan_distance(self.location, destination) // self.speed`. -/
def Driver.get_travel_time (d : Driver) (destination : Location) : Nat :=
  manhattan_distance d.location destination / d.speed

/-- `Driver.start_drive(location)`: set `is_idle = False` and
`destination = location`, return `round(distance / speed)`. -/
def Driver.start_drive (d : Driver) (location : Location) : Driver × Nat :=
  ({ d with is_idle := false, destination := some location },
    roundHalfEven (manhattan_distance d.location location) d.speed)

/-- `Driver.end_drive(rider)`: arrive at the rider's origin, clear the
destination, become idle. -/
def Driver.end_drive (d : Driver) (r : Rider) : Driver :=
  { d with location := r.origin, destination := none, is_idle := true }

/-- `Driver.start_ride(rider)`: set `destination = rider.destination`,
set `rider.status = SATISFIED`, return `get_travel_time(destination)`. -/
def Driver.start_ride (d : Driver) (r : Rider) : (Driver × Rider) × Nat :=
  let d' := { d with destination := some r.destination }
  (⟨d', { r with status := .satisfied }⟩, d'.get_travel_time r.destination)

/-- `Driver.end_ride(rider)`: arrive at the rider's destination, clear the
destination, become idle. -/
def Driver.end_ride (d : Driver) (r : Rider) : Driver :=
  { d with location := r.destination, destination := none, is_idle := true }

/-- `Driver.__eq__`: compares `(identifier, location, speed)` only. -/
def driverPyEq (a b : Driver) : Bool :=
  a.identifier == b.identifier && a.location == b.location &&
    a.speed == b.speed

/-! ### Events and monitor notifications

`event.py` defines the five event kinds; every event carries a timestamp
and entity references (arena indices here).  Events compare by timestamp
(`Event.__lt__`), which is the key used by the global `PriorityQueue`.
The monitor (`monitor.py`, not part of the sources) is, per the spec,
a fire-and-forget notifier `notify(timestamp, category, action, id,
location)`; we model it as an append-only log. -/

inductive Category where
  | rider
  | driver
deriving DecidableEq, Repr

inductive Action where
  | request
  | cancel
  | pickupAct
  | dropoffAct
deriving DecidableEq, Repr

structure Notification where
  timestamp : Nat
  category : Category
  action : Action
  ident : String
  loc : Location
deriving DecidableEq, Repr

/-- The closed variant of the five event kinds of `event.py`, carrying
arena indices for the referenced entities. -/
inductive Event where
  | riderRequest (timestamp : Nat) (rider : Nat)
  | driverRequest (timestamp : Nat) (driver : Nat)
  | cancellation (timestamp : Nat) (rider : Nat)
  | pickup (timestamp : Nat) (rider : Nat) (driver : Nat)
  | dropoff (timestamp : Nat) (driver : Nat) (rider : Nat)
deriving DecidableEq, Repr

/-- `Event.timestamp`; the comparison key of `Event.__lt__`/`__le__`. -/
def Event.timestamp : Event → Nat
  | .riderRequest t _ => t
  | .driverRequest t _ => t
  | .cancellation t _ => t
  | .pickup t _ _ => t
  | .dropoff t _ _ => t

/-! ### Simulation state

The whole engine state: the entity arenas, the dispatcher state
(`driver_list` registry and `rq` waiting list from `dispatcher.py`), the
global event queue and the notification log. -/

structure SimState where
  riders : List Rider
  drivers : List Driver
  driver_list : List Nat
  rq : List Nat
  queue : List Event
  notifications : List Notification
deriving DecidableEq, Repr

/-- Append one monitor notification. -/
def notifyM (s : SimState) (n : Notification) : SimState :=
  { s with notifications := s.notifications ++ [n] }

/-- Idle flag of the registered driver at arena index `j`. -/
def idleD (drivers : List Driver) (j : Nat) : Bool :=
  (drivers.getD j dfltDriver).is_idle

/-- ETA (`get_travel_time`) from the driver at arena index `j` to `o`. -/
def etaD (drivers : List Driver) (o : Location) (j : Nat) : Nat :=
  (drivers.getD j dfltDriver).get_travel_time o

/-- First loop of `Dispatcher.request_driver`: for each registered driver
in registration order, if it is idle overwrite `(eta, fastest_driver)`;
`none` models the variables staying unbound. -/
def lastIdleScan (drivers : List Driver) (o : Location) (dl : List Nat) :
    Option (Nat × Nat) :=
  dl.foldl
    (fun acc j => if idleD drivers j then some (etaD drivers o j, j) else acc)
    none

/-- Second loop of `Dispatcher.request_driver`: rescan all registered
drivers, replacing the candidate whenever an idle driver's ETA is strictly
smaller. -/
def minScan (drivers : List Driver) (o : Location) (dl : List Nat)
    (best : Nat × Nat) : Nat × Nat :=
  dl.foldl
    (fun b k =>
      if idleD drivers k then
        if etaD drivers o k < b.1 then (etaD drivers o k, k) else b
      else b)
    best

/-- `fastest_driver.is_idle = False`: clear the idle flag of the driver at
arena index `j`. -/
def markNotIdle (s : SimState) (j : Nat) : SimState :=
  { s with
    drivers := s.drivers.set j
      { s.drivers.getD j dfltDriver with is_idle := false } }

/-- `Dispatcher.request_driver(rider)`.  If the registry is non-empty, run
the two scan loops and mark the winner non-idle; if the first loop found no
idle driver the Python code dereferences the unbound `fastest_driver` and
raises `NameError`, modelled as `none`.  If the registry is empty, append
the rider to the waiting list and (implicitly) return `None`. -/
def request_driver (s : SimState) (ri : Nat) : Option (SimState × Option Nat) :=
  let origin := (s.riders.getD ri dfltRider).origin
  if s.driver_list = [] then
    some ({ s with rq := s.rq ++ [ri] }, none)
  else
    match lastIdleScan s.drivers origin s.driver_list with
    | none => none
    | some best =>
      some (markNotIdle s (minScan s.drivers origin s.driver_list best).2,
        some (minScan s.drivers origin s.driver_list best).2)

/-- `Dispatcher.request_rider(driver)`: register the driver if it is not
already in `driver_list` (membership via `Driver.__eq__`) and mark it idle;
then pop the front of the waiting list if non-empty. -/
def request_rider (s : SimState) (di : Nat) : SimState × Option Nat :=
  let d := s.drivers.getD di dfltDriver
  let s1 :=
    if s.driver_list.all (fun j => !driverPyEq (s.drivers.getD j dfltDriver) d)
    then
      { s with driver_list := s.driver_list ++ [di],
               drivers := s.drivers.set di { d with is_idle := true } }
    else s
  match s1.rq with
  | [] => (s1, none)
  | ri :: rest => ({ s1 with rq := rest }, some ri)

/-- `RiderRequest.do`: notify, ask the dispatcher for a driver; if one is
assigned it starts driving to the rider (a `Pickup` is scheduled at
`now + travel_time`); a `Cancellation` at `now + patience` is always
scheduled. -/
def doRiderRequest (t ri : Nat) (s : SimState) :
    Option (SimState × List Event) :=
  let r := s.riders.getD ri dfltRider
  let s1 := notifyM s ⟨t, .rider, .request, r.rider_id, r.origin⟩
  match request_driver s1 ri with
  | none => none
  | some (s2, none) =>
    some (s2, [.cancellation (t + r.patience) ri])
  | some (s2, some di) =>
    let p := (s2.drivers.getD di dfltDriver).start_drive r.origin
    some ({ s2 with drivers := s2.drivers.set di p.1 },
      [.pickup (t + p.2) ri di, .cancellation (t + r.patience) ri])

/-- `DriverRequest.do`: notify, ask the dispatcher for a rider; if one is
assigned the driver starts driving to it and a `Pickup` is scheduled. -/
def doDriverRequest (t di : Nat) (s : SimState) : SimState × List Event :=
  let d := s.drivers.getD di dfltDriver
  let s1 := notifyM s ⟨t, .driver, .request, d.identifier, d.location⟩
  match request_rider s1 di with
  | (s2, none) => (s2, [])
  | (s2, some ri) =>
    let r := s2.riders.getD ri dfltRider
    let p := (s2.drivers.getD di dfltDriver).start_drive r.origin
    ({ s2 with drivers := s2.drivers.set di p.1 }, [.pickup (t + p.2) ri di])

/-- `Cancellation.do`: if the rider's status is not `SATISFIED`, notify
"cancel" and set the status to `CANCELLED`; always return `[]`. -/
def doCancellation (t ri : Nat) (s : SimState) : SimState × List Event :=
  let r := s.riders.getD ri dfltRider
  if r.status = .satisfied then (s, [])
  else
    let s1 := notifyM s ⟨t, .rider, .cancel, r.rider_id, r.origin⟩
    ({ s1 with riders := s1.riders.set ri { r with status := .cancelled } },
      [])

/-- `Pickup.do`: `end_drive`, notify the driver pickup, set
`is_idle = False`, then branch on the rider's status at execution time. -/
def doPickup (t ri di : Nat) (s : SimState) : SimState × List Event :=
  let r := s.riders.getD ri dfltRider
  let d := s.drivers.getD di dfltDriver
  let d1 := d.end_drive r
  let s1 := notifyM { s with drivers := s.drivers.set di d1 }
    ⟨t, .driver, .pickupAct, d1.identifier, d1.location⟩
  let d2 := { d1 with is_idle := false }
  let s2 := { s1 with drivers := s1.drivers.set di d2 }
  match r.status with
  | .waiting =>
    let r1 := { r with status := .satisfied }
    let s3 := { s2 with riders := s2.riders.set ri r1 }
    let p := d2.start_ride r1
    let s4 := { s3 with drivers := s3.drivers.set di p.1.1,
                        riders := s3.riders.set ri p.1.2 }
    let s5 := notifyM s4 ⟨t, .rider, .pickupAct, p.1.2.rider_id, p.1.2.origin⟩
    (s5, [.dropoff (t + p.2) di ri])
  | .cancelled =>
    ({ s2 with drivers := s2.drivers.set di { d2 with is_idle := true } },
      [.driverRequest t di])
  | .satisfied => (s2, [])

/-- `Dropoff.do`: force the rider's status to `SATISFIED`, `end_ride`,
notify, and return a `DriverRequest` at the same timestamp. -/
def doDropoff (t di ri : Nat) (s : SimState) : SimState × List Event :=
  let r := s.riders.getD ri dfltRider
  let r1 := { r with status := .satisfied }
  let s1 := { s with riders := s.riders.set ri r1 }
  let d := s1.drivers.getD di dfltDriver
  let d1 := d.end_ride r1
  let s2 := notifyM { s1 with drivers := s1.drivers.set di d1 }
    ⟨t, .driver, .dropoffAct, d1.identifier, d1.location⟩
  (s2, [.driverRequest t di])

/-- Dispatch over the five event kinds (`Event.do`). -/
def doEvent (e : Event) (s : SimState) : Option (SimState × List Event) :=
  match e with
  | .riderRequest t ri => doRiderRequest t ri s
  | .driverRequest t di => some (doDriverRequest t di s)
  | .cancellation t ri => some (doCancellation t ri s)
  | .pickup t ri di => some (doPickup t ri di s)
  | .dropoff t di ri => some (doDropoff t di ri s)

/-- Modelled from the spec: the simulation loop (an external collaborator,
§2/§5 of the design) repeatedly removes the earliest event from the global
priority queue, executes it, and adds each returned follow-up event back
into the queue in order.  `none` when the queue is empty or the executed
event raised. -/
def step (s : SimState) : Option SimState :=
  match s.queue with
  | [] => none
  | e :: rest =>
    match doEvent e { s with queue := rest } with
    | none => none
    | some (s', evs) =>
      some { s' with
        queue := evs.foldl
          (fun q ev => PriorityQueue.add Event.timestamp q (some ev))
          s'.queue }

/-- The one-step relation of the engine. -/
def stepRel (s s' : SimState) : Prop := step s = some s'

/-- Status of the rider at arena index `i`. -/
def stat (s : SimState) (i : Nat) : RiderStatus :=
  (s.riders.getD i dfltRider).status

/-- Initial events are parsed requests only (`create_event_list` builds
only `RiderRequest` and `DriverRequest` events). -/
def Event.isRequest : Event → Bool
  | .riderRequest _ _ => true
  | .driverRequest _ _ => true
  | _ => false

/-- An initial state: the queue holds only parsed request events and every
rider starts `WAITING` (`Rider.__init__`). -/
def InitState (s : SimState) : Prop :=
  (∀ e ∈ s.queue, e.isRequest = true) ∧
    ∀ r ∈ s.riders, r.status = RiderStatus.waiting

/-- The rider index a `Dropoff` event refers to, if any. -/
def Event.dropRider : Event → Option Nat
  | .dropoff _ _ ri => some ri
  | _ => none

/-- Inductive invariant for status monotonicity: every `Dropoff` event
sitting in the queue refers to a rider that is already `SATISFIED`. -/
def DropInv (s : SimState) : Prop :=
  ∀ e ∈ s.queue, ∀ ri, e.dropRider = some ri →
    ri < s.riders.length → stat s ri = RiderStatus.satisfied

/-! ### Concrete states used by counterexamples and witnesses -/

/-- Two identical idle drivers registered in order 0, 1; one waiting rider
at the same spot, so both ETAs are equal. -/
def cw1 : SimState :=
  { riders := [{ rider_id := "r", origin := ⟨0, 0⟩, destination := ⟨5, 5⟩,
                 status := .waiting, patience := 10 }],
    drivers := [{ identifier := "a", location := ⟨0, 0⟩, speed := 1,
                  destination := none, is_idle := true },
                { identifier := "b", location := ⟨0, 0⟩, speed := 1,
                  destination := none, is_idle := true }],
    driver_list := [0, 1], rq := [], queue := [], notifications := [] }

/-- One registered driver that is not idle, one rider: per the docstring
this should enqueue the rider and return `None`. -/
def cw3 : SimState :=
  { riders := [{ rider_id := "r", origin := ⟨0, 0⟩, destination := ⟨5, 5⟩,
                 status := .waiting, patience := 10 }],
    drivers := [{ identifier := "d", location := ⟨1, 1⟩, speed := 2,
                  destination := some ⟨4, 4⟩, is_idle := false }],
    driver_list := [0], rq := [], queue := [], notifications := [] }

/-- One waiting rider, empty driver registry. -/
def cw4 : SimState :=
  { riders := [{ rider_id := "r", origin := ⟨1, 2⟩, destination := ⟨5, 5⟩,
                 status := .waiting, patience := 7 }],
    drivers := [], driver_list := [], rq := [], queue := [],
    notifications := [] }

/-- A rider that has already cancelled, with a driver en route. -/
def cw6 : SimState :=
  { riders := [{ rider_id := "r", origin := ⟨2, 2⟩, destination := ⟨5, 5⟩,
                 status := .cancelled, patience := 7 }],
    drivers := [{ identifier := "d", location := ⟨0, 0⟩, speed := 3,
                  destination := some ⟨2, 2⟩, is_idle := false }],
    driver_list := [0], rq := [], queue := [], notifications := [] }

/-- A rider whose status is already `CANCELLED` when a `Cancellation`
event executes. -/
def cw7 : SimState :=
  { riders := [{ rider_id := "r", origin := ⟨1, 1⟩, destination := ⟨2, 3⟩,
                 status := .cancelled, patience := 4 }],
    drivers := [], driver_list := [], rq := [], queue := [],
    notifications := [] }

/-- A rider whose status is already `SATISFIED` when a `Pickup` event
executes; the driver sits away from the rider's origin. -/
def cw8 : SimState :=
  { riders := [{ rider_id := "r", origin := ⟨2, 2⟩, destination := ⟨3, 3⟩,
                 status := .satisfied, patience := 5 }],
    drivers := [{ identifier := "d", location := ⟨1, 1⟩, speed := 1,
                  destination := some ⟨9, 9⟩, is_idle := true }],
    driver_list := [0], rq := [], queue := [], notifications := [] }

/-- Driver with speed 2 sitting at the origin: the approach leg to
`(3, 0)` takes `round(3 / 2) = 2` ticks while the ride leg would take
`3 // 2 = 1` tick, exhibiting the two rounding rules. -/
def dw5 : Driver :=
  { identifier := "d", location := ⟨0, 0⟩, speed := 2,
    destination := none, is_idle := true }

/-- Rider used with `dw5`. -/
def rw5 : Rider :=
  { rider_id := "r", origin := ⟨0, 0⟩, destination := ⟨3, 0⟩,
    status := .waiting, patience := 9 }

/-- An initial state: one rider request queued, no drivers. -/
def cw9 : SimState :=
  { riders := [{ rider_id := "r", origin := ⟨1, 1⟩, destination := ⟨2, 3⟩,
                 status := .waiting, patience := 4 }],
    drivers := [], driver_list := [], rq := [],
    queue := [.riderRequest 0 0], notifications := [] }

/-- The state `step` reaches from `cw9`: the rider request executed, the
rider enqueued on the waiting list, a `Cancellation` at `0 + 4` queued. -/
def cw9s1 : SimState :=
  { riders := [{ rider_id := "r", origin := ⟨1, 1⟩, destination := ⟨2, 3⟩,
                 status := .waiting, patience := 4 }],
    drivers := [], driver_list := [], rq := [0],
    queue := [.cancellation 4 0],
    notifications := [⟨0, .rider, .request, "r", ⟨1, 1⟩⟩] }

/-! ## Theorems -/

theorem list_getD_set_self {α : Type} (l : List α) {i : Nat} (a d : α)
    (h : i < l.length) : (l.set i a).getD i d = a := by
  induction l generalizing i with
  | nil => simp at h
  | cons b l ih =>
    cases i with
    | zero => rfl
    | succ i => exact ih (by simpa using h)

theorem list_getD_set_ne {α : Type} (l : List α) {i j : Nat} (h : i ≠ j)
    (a d : α) : (l.set i a).getD j d = l.getD j d := by
  induction l generalizing i j with
  | nil => rfl
  | cons b l ih =>
    cases i with
    | zero => cases j with
      | zero => exact absurd rfl h
      | succ j => rfl
    | succ i => cases j with
      | zero => rfl
      | succ j => exact ih (show i ≠ j by omega)

theorem list_set_getD_self {α : Type} (l : List α) (i : Nat) (d : α) :
    l.set i (l.getD i d) = l := by
  induction l generalizing i with
  | nil => rfl
  | cons b l ih =>
    cases i with
    | zero => rfl
    | succ i => simpa using ih i

theorem list_set_getElemD_self {α : Type} (l : List α) (i : Nat) (d : α) :
    l.set i (l[i]?.getD d) = l := by
  simpa [List.getD_eq_getElem?_getD] using list_set_getD_self l i d

theorem drain_eq_items {α : Type} (items : List α) :
    PriorityQueue.drain items.length items = items := by
  induction items with
  | nil => rfl
  | cons a rest ih =>
    simp [PriorityQueue.drain, PriorityQueue.remove, ih]

theorem insPy_perm {α : Type} (key : α → Nat) (a : α) (l : List α) :
    (insPy key a l).Perm (a :: l) := by
  induction l with
  | nil => simp [insPy]
  | cons b l ih =>
    simp only [insPy]
    split
    · exact List.Perm.refl _
    · exact (ih.cons b).trans (List.Perm.swap a b l)

/-- Inserting into a key-sorted list keeps it key-sorted. -/
theorem insPy_sorted {α : Type} (key : α → Nat) (a : α) {l : List α}
    (hl : l.Sorted (fun x y => key x ≤ key y)) :
    (insPy key a l).Sorted (fun x y => key x ≤ key y) := by
  induction l with
  | nil => simp [insPy]
  | cons b l ih =>
    simp only [insPy]
    rcases List.sorted_cons.mp hl with ⟨hb, hl'⟩
    split
    · rename_i hab
      refine List.sorted_cons.mpr ⟨?_, hl⟩
      intro c hc
      rcases List.mem_cons.mp hc with hc | hc
      · subst hc; exact Nat.le_of_lt hab
      · exact (Nat.le_of_lt hab).trans (hb c hc)
    · rename_i hab
      refine List.sorted_cons.mpr ⟨?_, ih hl'⟩
      intro c hc
      rcases List.mem_cons.mp ((insPy_perm key a l).mem_iff.mp hc) with hc | hc
      · subst hc; exact Nat.le_of_not_lt hab
      · exact hb c hc

/-- Stability of one insertion into a sorted list: elements with any fixed
key keep their relative order, the new element going last among equals. -/
theorem insPy_filter {α : Type} (key : α → Nat) (a : α) {l : List α}
    (hl : l.Sorted (fun x y => key x ≤ key y)) (k : Nat) :
    (insPy key a l).filter (fun x => key x == k) =
      l.filter (fun x => key x == k) ++
        (if key a = k then [a] else []) := by
  induction l with
  | nil =>
    by_cases hak : key a = k <;> simp [insPy, hak]
  | cons b l ih =>
    rcases List.sorted_cons.mp hl with ⟨hb, hl'⟩
    simp only [insPy]
    split
    · rename_i hab
      -- `a` goes in front: every element of `b :: l` has key ≥ key b > key a,
      -- so if key a = k nothing in `b :: l` has key k.
      by_cases hak : key a = k
      · subst hak
        have hbk : ¬ key b = key a := by omega
        have hlk : List.filter (fun x => key x == key a) l = [] := by
          refine List.filter_eq_nil_iff.mpr (fun c hc => ?_)
          have := hb c hc
          simp only [beq_iff_eq]
          omega
        simp [List.filter_cons, hbk, hlk]
      · simp [List.filter_cons, hak]
    · rename_i hab
      simp only [List.filter_cons, ih hl']
      by_cases hbk : key b = k <;> simp [hbk]

theorem pySort_aux {α : Type} (key : α → Nat) (l acc : List α)
    (hacc : acc.Sorted (fun x y => key x ≤ key y)) :
    (l.foldl (fun acc x => insPy key x acc) acc).Sorted
        (fun x y => key x ≤ key y) ∧
      ∀ k, (l.foldl (fun acc x => insPy key x acc) acc).filter
            (fun x => key x == k) =
          acc.filter (fun x => key x == k) ++
            l.filter (fun x => key x == k) := by
  induction l generalizing acc with
  | nil => simpa using hacc
  | cons x l ih =>
    have hx := insPy_sorted key x hacc
    rcases ih (insPy key x acc) hx with ⟨h1, h2⟩
    refine ⟨h1, fun k => ?_⟩
    rw [List.foldl_cons] at *
    rw [h2 k, insPy_filter key x hacc k]
    by_cases hxk : key x = k <;> simp [List.filter_cons, hxk]

theorem pySort_sorted {α : Type} (key : α → Nat) (l : List α) :
    (pySort key l).Sorted (fun x y => key x ≤ key y) :=
  (pySort_aux key l [] (by simp)).1

/-- `pySort` is stable: the subsequence of elements with any fixed key is
preserved exactly. -/
theorem pySort_filter {α : Type} (key : α → Nat) (l : List α) (k : Nat) :
    (pySort key l).filter (fun x => key x == k) =
      l.filter (fun x => key x == k) := by
  have := (pySort_aux key l [] (by simp)).2 k
  simpa [pySort] using this

theorem pySort_perm {α : Type} (key : α → Nat) (l : List α) :
    (pySort key l).Perm l := by
  have : ∀ acc, (l.foldl (fun acc x => insPy key x acc) acc).Perm (acc ++ l) := by
    induction l with
    | nil => simp
    | cons x l ih =>
      intro acc
      rw [List.foldl_cons]
      refine (ih (insPy key x acc)).trans ?_
      refine ((insPy_perm key x acc).append_right l).trans ?_
      simpa using (@List.perm_middle α x acc l).symm
  simpa [pySort] using this []

theorem add_some_sorted {α : Type} (key : α → Nat) (q : List α) (a : α) :
    (PriorityQueue.add key q (some a)).Sorted (fun x y => key x ≤ key y) :=
  pySort_sorted key (q ++ [a])

theorem add_some_filter {α : Type} (key : α → Nat) (q : List α) (a : α)
    (k : Nat) :
    (PriorityQueue.add key q (some a)).filter (fun x => key x == k) =
      q.filter (fun x => key x == k) ++
        (if key a = k then [a] else []) := by
  rw [PriorityQueue.add, pySort_filter, List.filter_append]
  by_cases hak : key a = k <;> simp [hak]

theorem buildQueue_aux {α : Type} (key : α → Nat) (xs : List α) :
    ∀ q : List α, q.Sorted (fun x y => key x ≤ key y) →
      ((xs.foldl (fun q x => PriorityQueue.add key q (some x)) q).Sorted
          (fun x y => key x ≤ key y) ∧
        ∀ k, (xs.foldl (fun q x => PriorityQueue.add key q (some x)) q).filter
              (fun x => key x == k) =
            q.filter (fun x => key x == k) ++
              xs.filter (fun x => key x == k)) := by
  induction xs with
  | nil => intro q hq; simpa using hq
  | cons x xs ih =>
    intro q hq
    rw [List.foldl_cons]
    rcases ih (PriorityQueue.add key q (some x)) (add_some_sorted key q x)
      with ⟨h1, h2⟩
    refine ⟨h1, fun k => ?_⟩
    rw [h2 k, add_some_filter key q x k]
    by_cases hxk : key x = k <;> simp [List.filter_cons, hxk]

/-- C2: for every sequence of `add()` calls into the `PriorityQueue`
(duplicate keys allowed), successive `remove()` calls yield the items in
non-decreasing key order, and items with equal keys come out in their
original insertion order (the filtered subsequence at each key is exactly
the insertion-order subsequence). -/
theorem c2_priority_queue_fifo_stable {α : Type} (key : α → Nat)
    (xs : List α) :
    (PriorityQueue.drain
          (xs.foldl (fun q x => PriorityQueue.add key q (some x)) []).length
          (xs.foldl (fun q x => PriorityQueue.add key q (some x)) [])).Sorted
        (fun x y => key x ≤ key y) ∧
      ∀ k, (PriorityQueue.drain
            (xs.foldl (fun q x => PriorityQueue.add key q (some x)) []).length
            (xs.foldl (fun q x => PriorityQueue.add key q (some x)) [])).filter
            (fun x => key x == k) =
          xs.filter (fun x => key x == k) := by
  rw [drain_eq_items]
  rcases buildQueue_aux key xs [] (by simp) with ⟨h1, h2⟩
  exact ⟨h1, fun k => by simpa using h2 k⟩

/-- C10: `PriorityQueue.add` with the item `None` leaves the queue
unchanged — the guard `if item is not None` silently discards it — so
`remove()` never yields it and `is_empty()` is unaffected. -/
theorem c10_add_none_noop {α : Type} (key : α → Nat) (items : List α) :
    PriorityQueue.add key items none = items ∧
      PriorityQueue.is_empty (PriorityQueue.add key items none) =
        PriorityQueue.is_empty items ∧
      PriorityQueue.drain (PriorityQueue.add key items none).length
          (PriorityQueue.add key items none) =
        PriorityQueue.drain items.length items :=
  ⟨rfl, rfl, rfl⟩

/-- C3: with a non-empty driver registry in which no driver is idle,
`Dispatcher.request_driver` does not complete normally: the first scan
leaves `eta`/`fastest_driver` unbound and the Python code raises
`NameError` (modelled as `none`) instead of enqueuing the rider and
returning `None` as its own docstring promises. -/
theorem c3_none_idle_crash :
    cw3.driver_list ≠ [] ∧
      (∀ j ∈ cw3.driver_list, idleD cw3.drivers j = false) ∧
      request_driver cw3 0 = none ∧
      doEvent (.riderRequest 0 0) cw3 = none := by
  refine ⟨by decide, by decide, by decide, ?_⟩
  decide

/-- C4: a `RiderRequest` at time `t` executed while no driver has ever
registered (`driver_list` empty) returns exactly one follow-up event — a
`Cancellation` at `t + patience` — no `Pickup`, and enqueues the rider on
the waiting list. -/
theorem c4_rider_request_no_drivers (s : SimState) (t ri : Nat)
    (h : s.driver_list = []) :
    doEvent (.riderRequest t ri) s =
      some ({ s with
                rq := s.rq ++ [ri],
                notifications := s.notifications ++
                  [⟨t, .rider, .request, (s.riders.getD ri dfltRider).rider_id,
                    (s.riders.getD ri dfltRider).origin⟩] },
        [.cancellation (t + (s.riders.getD ri dfltRider).patience) ri]) := by
  simp [doEvent, doRiderRequest, request_driver, notifyM, h]

/-- C4 witness. -/
theorem c4_witness :
    doEvent (.riderRequest 0 0) cw4 =
      some ({ cw4 with
                rq := [0],
                notifications := [⟨0, .rider, .request, "r", ⟨1, 2⟩⟩] },
        [.cancellation 7 0]) :=
  c4_rider_request_no_drivers cw4 0 0 rfl

/-- C6: executing a `Pickup` for a rider whose status is `CANCELLED`
makes the driver idle again and returns exactly one follow-up event, a
`DriverRequest` at the same timestamp; no `Dropoff` is produced and the
rider arena (hence the rider's status) is untouched. -/
theorem c6_pickup_cancelled (s : SimState) (t ri di : Nat)
    (hst : (s.riders.getD ri dfltRider).status = .cancelled)
    (hdi : di < s.drivers.length) :
    (doEvent (.pickup t ri di) s).map (fun p => p.2) =
        some [.driverRequest t di] ∧
      (doEvent (.pickup t ri di) s).map
          (fun p => ((p.1.drivers.getD di dfltDriver).is_idle, p.1.riders)) =
        some (true, s.riders) := by
  have hst' : (s.riders[ri]?.getD dfltRider).status = RiderStatus.cancelled := by
    simpa using hst
  constructor <;>
    simp [doEvent, doPickup, hst', notifyM, List.getElem?_set_eq_of_lt, hdi]

/-- C6 witness. -/
theorem c6_witness :
    (doEvent (.pickup 9 0 0) cw6).map (fun p => p.2) =
        some [.driverRequest 9 0] ∧
      (doEvent (.pickup 9 0 0) cw6).map
          (fun p => ((p.1.drivers.getD 0 dfltDriver).is_idle, p.1.riders)) =
        some (true, cw6.riders) :=
  c6_pickup_cancelled cw6 9 0 0 (by decide) (by decide)

/-- C7 counterexample: for a rider already in the terminal state
`CANCELLED`, `Cancellation.do` is not a no-op — the guard is
`status != SATISFIED`, so a "cancel" notification is emitted again. -/
theorem c7_cancellation_not_noop_on_cancelled :
    (cw7.riders.getD 0 dfltRider).status = RiderStatus.cancelled ∧
      cw7.notifications.length = 0 ∧
      (doEvent (.cancellation 5 0) cw7).map
          (fun p => (p.1.notifications.length, p.2)) = some (1, []) := by
  decide

/-- C7 amended: `Cancellation.do` always returns an empty event list; for
a `SATISFIED` rider it is a complete no-op, but for a rider already
`CANCELLED` it re-emits the "cancel" notification while leaving the
rider's status (and the rider arena) unchanged. -/
theorem c7_cancellation_amended (s : SimState) (t ri : Nat) :
    (doEvent (.cancellation t ri) s).map (fun p => p.2) = some [] ∧
      ((s.riders.getD ri dfltRider).status = .satisfied →
        doEvent (.cancellation t ri) s = some (s, [])) ∧
      ((s.riders.getD ri dfltRider).status = .cancelled →
        (doEvent (.cancellation t ri) s).map
            (fun p => (p.1.riders, p.1.notifications)) =
          some (s.riders, s.notifications ++
            [⟨t, .rider, .cancel, (s.riders.getD ri dfltRider).rider_id,
              (s.riders.getD ri dfltRider).origin⟩])) := by
  by_cases hst : (s.riders.getD ri dfltRider).status = .satisfied
  · have hst' : (s.riders[ri]?.getD dfltRider).status = RiderStatus.satisfied := by
      simpa using hst
    refine ⟨?_, fun _ => ?_, fun hc => ?_⟩
    · simp [doEvent, doCancellation, hst']
    · simp [doEvent, doCancellation, hst']
    · rw [hc] at hst; exact absurd hst (by simp)
  · have hst' : ¬ (s.riders[ri]?.getD dfltRider).status = RiderStatus.satisfied := by
      simpa using hst
    refine ⟨?_, fun hsat => absurd hsat hst, fun hc => ?_⟩
    · simp [doEvent, doCancellation, hst']
    · have hc' : (s.riders[ri]?.getD dfltRider).status = RiderStatus.cancelled := by
        simpa using hc
      have he : ({ s.riders[ri]?.getD dfltRider with status := .cancelled })
          = s.riders[ri]?.getD dfltRider := by rw [← hc']
      simp only [doEvent, doCancellation, if_neg hst, notifyM, Option.map_some]
      simp only [List.getD_eq_getElem?_getD]
      rw [he, list_set_getElemD_self]
      simp [notifyM]

/-- C7 witness. -/
theorem c7_amended_witness :
    (doEvent (.cancellation 5 0) cw7).map (fun p => p.2) = some [] ∧
      ((cw7.riders.getD 0 dfltRider).status = .satisfied →
        doEvent (.cancellation 5 0) cw7 = some (cw7, [])) ∧
      ((cw7.riders.getD 0 dfltRider).status = .cancelled →
        (doEvent (.cancellation 5 0) cw7).map
            (fun p => (p.1.riders, p.1.notifications)) =
          some (cw7.riders, cw7.notifications ++
            [⟨5, .rider, .cancel, (cw7.riders.getD 0 dfltRider).rider_id,
              (cw7.riders.getD 0 dfltRider).origin⟩])) :=
  c7_cancellation_amended cw7 5 0

/-- C8 counterexample: executing a `Pickup` for an already-`SATISFIED`
rider is not free of driver effects — `end_drive` still runs, so the
driver's location moves to the rider's origin, the destination is cleared,
and the idle flag ends up `False`. -/
theorem c8_pickup_satisfied_not_frameless :
    (cw8.riders.getD 0 dfltRider).status = RiderStatus.satisfied ∧
      (cw8.drivers.getD 0 dfltDriver).location = ⟨1, 1⟩ ∧
      (cw8.drivers.getD 0 dfltDriver).is_idle = true ∧
      (doEvent (.pickup 3 0 0) cw8).map
          (fun p => ((p.1.drivers.getD 0 dfltDriver).location,
            (p.1.drivers.getD 0 dfltDriver).destination,
            (p.1.drivers.getD 0 dfltDriver).is_idle, p.2)) =
        some (⟨2, 2⟩, none, false, []) := by
  decide

/-- C8 amended: executing a `Pickup` for an already-`SATISFIED` rider
returns no follow-up events and leaves the rider arena unchanged, but the
driver still arrives: its location becomes the rider's origin, its
destination is cleared, and its idle flag is left `False`. -/
theorem c8_pickup_satisfied_amended (s : SimState) (t ri di : Nat)
    (hst : (s.riders.getD ri dfltRider).status = .satisfied)
    (hdi : di < s.drivers.length) :
    (doEvent (.pickup t ri di) s).map (fun p => (p.2, p.1.riders)) =
        some ([], s.riders) ∧
      (doEvent (.pickup t ri di) s).map
          (fun p => ((p.1.drivers.getD di dfltDriver).location,
            (p.1.drivers.getD di dfltDriver).destination,
            (p.1.drivers.getD di dfltDriver).is_idle)) =
        some ((s.riders.getD ri dfltRider).origin, none, false) := by
  have hst' : (s.riders[ri]?.getD dfltRider).status = RiderStatus.satisfied := by
    simpa using hst
  constructor <;>
    simp [doEvent, doPickup, hst', notifyM, Driver.end_drive,
      List.getElem?_set_eq_of_lt, hdi]

/-- C8 witness. -/
theorem c8_amended_witness :
    (doEvent (.pickup 3 0 0) cw8).map (fun p => (p.2, p.1.riders)) =
        some ([], cw8.riders) ∧
      (doEvent (.pickup 3 0 0) cw8).map
          (fun p => ((p.1.drivers.getD 0 dfltDriver).location,
            (p.1.drivers.getD 0 dfltDriver).destination,
            (p.1.drivers.getD 0 dfltDriver).is_idle)) =
        some ((cw8.riders.getD 0 dfltRider).origin, none, false) :=
  c8_pickup_satisfied_amended cw8 3 0 0 (by decide) (by decide)

/-- Arithmetic characterisation of `roundHalfEven num den`: it is within
half of the exact quotient (stated multiplied out to stay in `Nat`), and
an exact half rounds to an even integer. -/
theorem roundHalfEven_bounds (D s : Nat) (hs : 0 < s) :
    2 * roundHalfEven D s * s ≤ 2 * D + s ∧
      2 * D ≤ (2 * roundHalfEven D s + 1) * s ∧
      (2 * (D % s) = s → roundHalfEven D s % 2 = 0) := by
  have hdm : s * (D / s) + D % s = D := Nat.div_add_mod D s
  have hmlt : D % s < s := Nat.mod_lt _ hs
  rw [roundHalfEven]
  generalize hq : D / s = q at hdm ⊢
  generalize hr : D % s = r at hdm hmlt ⊢
  rw [← hdm]
  refine ⟨?_, ?_, ?_⟩
  · split_ifs with h1 h2 h3 <;> nlinarith
  · split_ifs with h1 h2 h3 <;> nlinarith
  · intro htie
    split_ifs with h1 h2 h3 <;> omega

/-- C5: for a positive speed, the ride-leg time (`Driver.get_travel_time`,
the value `start_ride` returns) is the integer floor of Manhattan distance
over speed (characterised by `speed * t ≤ dist < speed * (t + 1)`), while
the approach-leg time (`Driver.start_drive`) is the distance over speed
rounded to the nearest integer (within one half: `|t - dist/speed| ≤ 1/2`,
stated multiplied out) with exact halves rounded to an even integer. -/
theorem c5_two_rounding_rules (d : Driver) (dest : Location) (r : Rider)
    (hs : 0 < d.speed) :
    (d.start_ride r).2 =
        manhattan_distance d.location r.destination / d.speed ∧
      d.speed * d.get_travel_time dest ≤ manhattan_distance d.location dest ∧
      manhattan_distance d.location dest <
        d.speed * (d.get_travel_time dest + 1) ∧
      2 * (d.start_drive dest).2 * d.speed ≤
        2 * manhattan_distance d.location dest + d.speed ∧
      2 * manhattan_distance d.location dest ≤
        (2 * (d.start_drive dest).2 + 1) * d.speed ∧
      (2 * (manhattan_distance d.location dest % d.speed) = d.speed →
        (d.start_drive dest).2 % 2 = 0) := by
  rcases roundHalfEven_bounds (manhattan_distance d.location dest) d.speed hs
    with ⟨h1, h2, h3⟩
  refine ⟨rfl, ?_, ?_, h1, h2, h3⟩
  · rw [Driver.get_travel_time, Nat.mul_comm]
    exact Nat.div_mul_le_self _ _
  · rw [Driver.get_travel_time, Nat.mul_comm]
    exact (Nat.div_lt_iff_lt_mul hs).mp (Nat.lt_succ_self _)

/-- C5 witness: at speed 2 and distance 3 the ride leg takes
`3 // 2 = 1` tick while the approach leg takes `round(3 / 2) = 2`. -/
theorem c5_witness :
    (dw5.start_ride rw5).2 =
        manhattan_distance dw5.location rw5.destination / dw5.speed ∧
      dw5.speed * dw5.get_travel_time ⟨3, 0⟩ ≤
        manhattan_distance dw5.location ⟨3, 0⟩ ∧
      manhattan_distance dw5.location ⟨3, 0⟩ <
        dw5.speed * (dw5.get_travel_time ⟨3, 0⟩ + 1) ∧
      2 * (dw5.start_drive ⟨3, 0⟩).2 * dw5.speed ≤
        2 * manhattan_distance dw5.location ⟨3, 0⟩ + dw5.speed ∧
      2 * manhattan_distance dw5.location ⟨3, 0⟩ ≤
        (2 * (dw5.start_drive ⟨3, 0⟩).2 + 1) * dw5.speed ∧
      (2 * (manhattan_distance dw5.location ⟨3, 0⟩ % dw5.speed) = dw5.speed →
        (dw5.start_drive ⟨3, 0⟩).2 % 2 = 0) :=
  c5_two_rounding_rules dw5 ⟨3, 0⟩ rw5 (by decide)

theorem getLast?_mem_of_eq {α : Type} :
    ∀ {l : List α} {a : α}, l.getLast? = some a → a ∈ l
  | [], a, h => by simp at h
  | [b], a, h => by
    simp only [List.getLast?_singleton, Option.some.injEq] at h
    simp [h]
  | b :: c :: l, a, h => by
    rw [List.getLast?_cons_cons] at h
    exact List.mem_cons_of_mem b (getLast?_mem_of_eq h)

theorem getLast?_some_of_ne_nil {α : Type} (l : List α) (h : l ≠ []) :
    ∃ a, l.getLast? = some a :=
  ⟨l.getLast h, List.getLast?_eq_getLast_of_ne_nil h⟩

theorem foldl_lastIdle (drivers : List Driver) (o : Location) (dl : List Nat)
    (acc : Option (Nat × Nat)) :
    dl.foldl (fun a j => if idleD drivers j then some (etaD drivers o j, j)
        else a) acc =
      match (dl.filter (fun j => idleD drivers j)).getLast? with
      | none => acc
      | some j => some (etaD drivers o j, j) := by
  induction dl generalizing acc with
  | nil => rfl
  | cons k dl ih =>
    rw [List.foldl_cons, List.filter_cons]
    by_cases hk : idleD drivers k = true
    · rw [if_pos hk, ih, if_pos hk]
      cases hfl : dl.filter (fun j => idleD drivers j) with
      | nil => simp [hfl]
      | cons x xs =>
        obtain ⟨a, ha⟩ := getLast?_some_of_ne_nil (x :: xs) (by simp)
        simp [hfl, List.getLast?_cons_cons, ha]
    · rw [if_neg hk, ih, if_neg hk]

/-- The first scan of `request_driver` computes the *last* idle driver in
registration order (and its ETA), or stays unbound if none is idle. -/
theorem lastIdleScan_eq (drivers : List Driver) (o : Location)
    (dl : List Nat) :
    lastIdleScan drivers o dl =
      ((dl.filter (fun j => idleD drivers j)).getLast?).map
        (fun j => (etaD drivers o j, j)) := by
  rw [lastIdleScan, foldl_lastIdle]
  cases (dl.filter (fun j => idleD drivers j)).getLast? <;> rfl

theorem minScan_cons (drivers : List Driver) (o : Location) (k : Nat)
    (dl : List Nat) (b : Nat × Nat) :
    minScan drivers o (k :: dl) b =
      minScan drivers o dl
        (if idleD drivers k then
          (if etaD drivers o k < b.1 then (etaD drivers o k, k) else b)
        else b) := rfl

/-- If the starting candidate's ETA is already minimal among the idle
drivers scanned, the second scan never improves strictly and returns the
starting candidate unchanged. -/
theorem minScan_ge (drivers : List Driver) (o : Location) (dl : List Nat) :
    ∀ e j, (∀ k ∈ dl, idleD drivers k = true → e ≤ etaD drivers o k) →
      minScan drivers o dl (e, j) = (e, j) := by
  induction dl with
  | nil => intro e j _; rfl
  | cons k dl ih =>
    intro e j h
    rw [minScan_cons]
    have hstep : (if idleD drivers k then
        (if etaD drivers o k < (e, j).1 then (etaD drivers o k, k) else (e, j))
        else (e, j)) = (e, j) := by
      by_cases hk : idleD drivers k = true
      · rw [if_pos hk,
          if_neg (Nat.not_lt.mpr (h k (List.mem_cons_self k dl) hk))]
      · rw [if_neg hk]
    rw [hstep]
    exact ih e j (fun k' hk' => h k' (List.mem_cons_of_mem _ hk'))

/-- If some scanned idle driver beats the starting candidate strictly, the
second scan returns the minimum ETA together with the *earliest* idle
driver attaining it. -/
theorem minScan_lt (drivers : List Driver) (o : Location) (dl : List Nat) :
    ∀ e j, (∃ k ∈ dl, idleD drivers k = true ∧ etaD drivers o k < e) →
      ∃ m jm, minScan drivers o dl (e, j) = (m, jm) ∧ m < e ∧
        idleD drivers jm = true ∧ etaD drivers o jm = m ∧ jm ∈ dl ∧
        (∀ k ∈ dl, idleD drivers k = true → m ≤ etaD drivers o k) ∧
        (dl.filter (fun k => idleD drivers k &&
            (etaD drivers o k == m))).head? = some jm := by
  induction dl with
  | nil => intro e j h; simp at h
  | cons k dl ih =>
    intro e j hex
    rw [minScan_cons]
    by_cases hk : idleD drivers k = true
    · rw [if_pos hk]
      by_cases hlt : etaD drivers o k < (e, j).1
      · rw [if_pos hlt]
        by_cases hex2 : ∃ k' ∈ dl, idleD drivers k' = true ∧
            etaD drivers o k' < etaD drivers o k
        · obtain ⟨m, jm, hms, hmlt, hidle, hetam, hmem, hmin, hhead⟩ :=
            ih (etaD drivers o k) k hex2
          have hne : ¬ (etaD drivers o k == m) = true := by
            simp only [beq_iff_eq]; omega
          refine ⟨m, jm, hms, hmlt.trans hlt, hidle, hetam,
            List.mem_cons_of_mem _ hmem, ?_, ?_⟩
          · intro k' hk' hid
            rcases List.mem_cons.mp hk' with h | h
            · subst h; exact Nat.le_of_lt hmlt
            · exact hmin k' h hid
          · rw [List.filter_cons, if_neg (by simp [hne])]
            exact hhead
        · push_neg at hex2
          have hge : ∀ k' ∈ dl, idleD drivers k' = true →
              etaD drivers o k ≤ etaD drivers o k' := by
            intro k' hk' hid
            exact hex2 k' hk' hid
          refine ⟨etaD drivers o k, k, minScan_ge drivers o dl _ _ hge, hlt,
            hk, rfl, List.mem_cons_self k dl, ?_, ?_⟩
          · intro k' hk' hid
            rcases List.mem_cons.mp hk' with h | h
            · subst h; exact Nat.le_refl _
            · exact hge k' h hid
          · rw [List.filter_cons, if_pos (by simp [hk])]
            rfl
      · rw [if_neg hlt]
        obtain ⟨kw, hkw, hkidle, hklt⟩ := hex
        have hkwdl : kw ∈ dl := by
          rcases List.mem_cons.mp hkw with h | h
          · subst h; exact absurd hklt hlt
          · exact h
        obtain ⟨m, jm, hms, hmlt, hidle, hetam, hmem, hmin, hhead⟩ :=
          ih e j ⟨kw, hkwdl, hkidle, hklt⟩
        have hke : (e, j).1 ≤ etaD drivers o k := Nat.le_of_not_lt hlt
        have hne : ¬ (etaD drivers o k == m) = true := by
          simp only [beq_iff_eq]
          have : m < etaD drivers o k := Nat.lt_of_lt_of_le hmlt hke
          omega
        refine ⟨m, jm, hms, hmlt, hidle, hetam,
          List.mem_cons_of_mem _ hmem, ?_, ?_⟩
        · intro k' hk' hid
          rcases List.mem_cons.mp hk' with h | h
          · subst h
            exact Nat.le_of_lt (Nat.lt_of_lt_of_le hmlt hke)
          · exact hmin k' h hid
        · rw [List.filter_cons, if_neg (by simp [hne])]
          exact hhead
    · rw [if_neg hk]
      obtain ⟨kw, hkw, hkidle, hklt⟩ := hex
      have hkwdl : kw ∈ dl := by
        rcases List.mem_cons.mp hkw with h | h
        · subst h; exact absurd hkidle hk
        · exact h
      obtain ⟨m, jm, hms, hmlt, hidle, hetam, hmem, hmin, hhead⟩ :=
        ih e j ⟨kw, hkwdl, hkidle, hklt⟩
      refine ⟨m, jm, hms, hmlt, hidle, hetam,
        List.mem_cons_of_mem _ hmem, ?_, ?_⟩
      · intro k' hk' hid
        rcases List.mem_cons.mp hk' with h | h
        · subst h; exact absurd hid hk
        · exact hmin k' h hid
      · rw [List.filter_cons, if_neg (by simp [hk])]
        exact hhead

/-- C1 counterexample: two idle drivers registered in order `0, 1` with
equal ETAs to the rider's origin; the claim says the earliest-registered
driver (index 0) wins the tie, but `request_driver` returns index 1 — the
first scan initialises the candidate to the *last* idle driver and the
second scan only replaces it on a strictly smaller ETA. -/
theorem c1_tie_goes_to_last_registered :
    idleD cw1.drivers 0 = true ∧ idleD cw1.drivers 1 = true ∧
      etaD cw1.drivers ⟨0, 0⟩ 0 = etaD cw1.drivers ⟨0, 0⟩ 1 ∧
      cw1.driver_list = [0, 1] ∧
      (request_driver cw1 0).map (fun p => p.2) = some (some 1) := by
  decide

theorem idleD_markNotIdle (s : SimState) (j : Nat) :
    idleD (markNotIdle s j).drivers j = false := by
  by_cases h : j < s.drivers.length
  · show ((s.drivers.set j _).getD j dfltDriver).is_idle = false
    rw [list_getD_set_self _ _ _ h]
  · have hle : s.drivers.length ≤ j := Nat.le_of_not_lt h
    show ((s.drivers.set j _).getD j dfltDriver).is_idle = false
    rw [List.getD_eq_getElem?_getD, List.getElem?_eq_none (by simpa using hle)]
    rfl

/-- C1 amended: with at least one idle registered driver,
`request_driver` returns an idle registered driver whose ETA is minimal
among idle drivers and marks it non-idle; but the tie rule is: let `jL` be
the *last*-registered idle driver — if `jL`'s ETA is minimal the returned
driver is `jL`, and otherwise (some idle driver strictly beats `jL`) the
returned driver is the earliest-registered idle driver attaining the
minimal ETA. -/
theorem c1_request_driver_amended (s : SimState) (ri : Nat)
    (hne : s.driver_list.filter (fun k => idleD s.drivers k) ≠ []) :
    ∃ j jL s',
      request_driver s ri = some (s', some j) ∧
      (s.driver_list.filter (fun k => idleD s.drivers k)).getLast? =
        some jL ∧
      idleD s.drivers j = true ∧
      j ∈ s.driver_list ∧
      (∀ k ∈ s.driver_list, idleD s.drivers k = true →
        etaD s.drivers (s.riders.getD ri dfltRider).origin j ≤
          etaD s.drivers (s.riders.getD ri dfltRider).origin k) ∧
      s' = markNotIdle s j ∧
      idleD s'.drivers j = false ∧
      ((∀ k ∈ s.driver_list, idleD s.drivers k = true →
          etaD s.drivers (s.riders.getD ri dfltRider).origin jL ≤
            etaD s.drivers (s.riders.getD ri dfltRider).origin k) →
        j = jL) ∧
      ((∃ k ∈ s.driver_list, idleD s.drivers k = true ∧
          etaD s.drivers (s.riders.getD ri dfltRider).origin k <
            etaD s.drivers (s.riders.getD ri dfltRider).origin jL) →
        (s.driver_list.filter (fun k => idleD s.drivers k &&
            (etaD s.drivers (s.riders.getD ri dfltRider).origin k ==
              etaD s.drivers (s.riders.getD ri dfltRider).origin j))).head? =
          some j) := by
  have hdl : s.driver_list ≠ [] := by
    intro h
    exact hne (by simp [h])
  obtain ⟨jL, hjL⟩ := getLast?_some_of_ne_nil _ hne
  have hjLf : jL ∈ s.driver_list.filter (fun k => idleD s.drivers k) :=
    getLast?_mem_of_eq hjL
  have hjLmem : jL ∈ s.driver_list := (List.mem_filter.mp hjLf).1
  have hjLidle : idleD s.drivers jL = true := (List.mem_filter.mp hjLf).2
  set o := (s.riders.getD ri dfltRider).origin with ho
  have hrd : request_driver s ri = some
      (markNotIdle s
          (minScan s.drivers o s.driver_list (etaD s.drivers o jL, jL)).2,
        some (minScan s.drivers o s.driver_list (etaD s.drivers o jL, jL)).2)
      := by
    rw [request_driver, if_neg hdl, lastIdleScan_eq, hjL]
    rfl
  by_cases hc : ∀ k ∈ s.driver_list, idleD s.drivers k = true →
      etaD s.drivers o jL ≤ etaD s.drivers o k
  · have hms := minScan_ge s.drivers o s.driver_list (etaD s.drivers o jL)
      jL hc
    refine ⟨jL, jL, markNotIdle s jL, ?_, hjL, hjLidle, hjLmem, hc, rfl,
      idleD_markNotIdle s jL, fun _ => rfl, ?_⟩
    · rw [hrd, hms]
    · intro hex
      exfalso
      obtain ⟨k, hk, hid, hlt⟩ := hex
      have := hc k hk hid
      omega
  · push_neg at hc
    obtain ⟨m, jm, hms, hmlt, hidle, hetam, hmem, hmin, hhead⟩ :=
      minScan_lt s.drivers o s.driver_list (etaD s.drivers o jL) jL hc
    refine ⟨jm, jL, markNotIdle s jm, ?_, hjL, hidle, hmem, ?_, rfl,
      idleD_markNotIdle s jm, ?_, fun _ => ?_⟩
    · rw [hrd, hms]
    · intro k hk hid
      rw [hetam]
      exact hmin k hk hid
    · intro hall
      exfalso
      obtain ⟨k, hk, hid, hlt⟩ := hc
      have := hall k hk hid
      omega
    · rw [hetam]
      exact hhead

/-- C1 witness: two idle drivers with equal ETAs; the amended tie rule
applies with the last idle driver (index 1) attaining the minimum. -/
theorem c1_amended_witness :
    ∃ j jL s',
      request_driver cw1 0 = some (s', some j) ∧
      (cw1.driver_list.filter (fun k => idleD cw1.drivers k)).getLast? =
        some jL ∧
      idleD cw1.drivers j = true ∧
      j ∈ cw1.driver_list ∧
      (∀ k ∈ cw1.driver_list, idleD cw1.drivers k = true →
        etaD cw1.drivers (cw1.riders.getD 0 dfltRider).origin j ≤
          etaD cw1.drivers (cw1.riders.getD 0 dfltRider).origin k) ∧
      s' = markNotIdle cw1 j ∧
      idleD s'.drivers j = false ∧
      ((∀ k ∈ cw1.driver_list, idleD cw1.drivers k = true →
          etaD cw1.drivers (cw1.riders.getD 0 dfltRider).origin jL ≤
            etaD cw1.drivers (cw1.riders.getD 0 dfltRider).origin k) →
        j = jL) ∧
      ((∃ k ∈ cw1.driver_list, idleD cw1.drivers k = true ∧
          etaD cw1.drivers (cw1.riders.getD 0 dfltRider).origin k <
            etaD cw1.drivers (cw1.riders.getD 0 dfltRider).origin jL) →
        (cw1.driver_list.filter (fun k => idleD cw1.drivers k &&
            (etaD cw1.drivers (cw1.riders.getD 0 dfltRider).origin k ==
              etaD cw1.drivers (cw1.riders.getD 0 dfltRider).origin j))).head?
          = some j) :=
  c1_request_driver_amended cw1 0 (by decide)

theorem list_set_oob {α : Type} (l : List α) {i : Nat} (a : α)
    (h : l.length ≤ i) : l.set i a = l := by
  induction l generalizing i with
  | nil => rfl
  | cons b l ih =>
    cases i with
    | zero => simp at h
    | succ i => simpa using ih (by simpa using h)

theorem mem_add_some {α : Type} (key : α → Nat) (q : List α) (a x : α) :
    x ∈ PriorityQueue.add key q (some a) ↔ x ∈ q ∨ x = a := by
  rw [PriorityQueue.add]
  rw [(pySort_perm key (q ++ [a])).mem_iff]
  simp

theorem mem_foldl_add {α : Type} (key : α → Nat) (evs : List α) :
    ∀ q x, x ∈ evs.foldl (fun q e => PriorityQueue.add key q (some e)) q →
      x ∈ q ∨ x ∈ evs := by
  induction evs with
  | nil => intro q x h; exact Or.inl h
  | cons e evs ih =>
    intro q x h
    rw [List.foldl_cons] at h
    rcases ih _ x h with h' | h'
    · rcases (mem_add_some key q e x).mp h' with h'' | h''
      · exact Or.inl h''
      · exact Or.inr (by simp [h''])
    · exact Or.inr (List.mem_cons_of_mem _ h')

/-! Shape lemmas: the exact rider-arena and follow-up-event effect of each
event's `do`. -/

theorem request_driver_pres (s : SimState) (ri : Nat) :
    ∀ p, request_driver s ri = some p →
      p.1.riders = s.riders ∧ p.1.queue = s.queue := by
  intro p h
  rw [request_driver] at h
  split_ifs at h with hdl
  · injection h with h'
    subst h'
    exact ⟨rfl, rfl⟩
  · cases hscan : lastIdleScan s.drivers (s.riders.getD ri dfltRider).origin
        s.driver_list with
    | none => rw [hscan] at h; cases h
    | some best =>
      rw [hscan] at h
      injection h with h'
      subst h'
      exact ⟨rfl, rfl⟩

theorem request_rider_pres (s : SimState) (di : Nat) :
    (request_rider s di).1.riders = s.riders ∧
      (request_rider s di).1.queue = s.queue := by
  rcases s with ⟨rid, drv, dl, rq, qu, nt⟩
  rw [request_rider]
  split_ifs with hreg <;> cases rq <;> exact ⟨rfl, rfl⟩

theorem doRiderRequest_shape (t ri : Nat) (s : SimState) :
    ∀ p, doRiderRequest t ri s = some p →
      p.1.riders = s.riders ∧ p.1.queue = s.queue ∧
        ∀ e ∈ p.2, e.dropRider = none := by
  intro p h
  rw [doRiderRequest] at h
  cases hrd : request_driver (notifyM s
      ⟨t, .rider, .request, (s.riders.getD ri dfltRider).rider_id,
        (s.riders.getD ri dfltRider).origin⟩) ri with
  | none => rw [hrd] at h; cases h
  | some q =>
    have hpres := request_driver_pres _ ri q hrd
    rcases q with ⟨s2, od⟩
    cases od with
    | none =>
      rw [hrd] at h
      injection h with h'
      subst h'
      refine ⟨hpres.1, hpres.2, ?_⟩
      intro e he
      rcases List.mem_singleton.mp he with rfl
      rfl
    | some di =>
      rw [hrd] at h
      injection h with h'
      subst h'
      refine ⟨hpres.1, hpres.2, ?_⟩
      intro e he
      rcases List.mem_cons.mp he with rfl | he'
      · rfl
      · rcases List.mem_singleton.mp he' with rfl
        rfl

theorem doDriverRequest_shape (t di : Nat) (s : SimState) :
    (doDriverRequest t di s).1.riders = s.riders ∧
      (doDriverRequest t di s).1.queue = s.queue ∧
      ∀ e ∈ (doDriverRequest t di s).2, e.dropRider = none := by
  rw [doDriverRequest]
  have hpres := request_rider_pres (notifyM s
    ⟨t, .driver, .request, (s.drivers.getD di dfltDriver).identifier,
      (s.drivers.getD di dfltDriver).location⟩) di
  cases hrr : request_rider (notifyM s
      ⟨t, .driver, .request, (s.drivers.getD di dfltDriver).identifier,
        (s.drivers.getD di dfltDriver).location⟩) di with
  | mk s2 orid =>
    rw [hrr] at hpres
    cases orid with
    | none =>
      exact ⟨hpres.1, hpres.2, by simp⟩
    | some ri =>
      refine ⟨hpres.1, hpres.2, ?_⟩
      intro e he
      rcases List.mem_singleton.mp he with rfl
      rfl

theorem doCancellation_shape (t ri : Nat) (s : SimState) :
    (doCancellation t ri s).2 = [] ∧
      (doCancellation t ri s).1.queue = s.queue ∧
      ((stat s ri = .satisfied ∧ (doCancellation t ri s).1.riders = s.riders)
        ∨ (stat s ri ≠ .satisfied ∧ (doCancellation t ri s).1.riders =
            s.riders.set ri
              { s.riders.getD ri dfltRider with status := .cancelled })) := by
  rw [doCancellation]
  by_cases hst : (s.riders.getD ri dfltRider).status = .satisfied
  · rw [if_pos hst]
    exact ⟨rfl, rfl, Or.inl ⟨hst, rfl⟩⟩
  · rw [if_neg hst]
    exact ⟨rfl, rfl, Or.inr ⟨hst, rfl⟩⟩

theorem doPickup_shape (t ri di : Nat) (s : SimState) :
    (doPickup t ri di s).1.queue = s.queue ∧
      ((stat s ri = .waiting ∧
          (∃ tt, (doPickup t ri di s).2 = [.dropoff tt di ri]) ∧
          (doPickup t ri di s).1.riders =
            (s.riders.set ri
                { s.riders.getD ri dfltRider with status := .satisfied }).set
              ri { s.riders.getD ri dfltRider with status := .satisfied })
        ∨ (stat s ri = .cancelled ∧
            (doPickup t ri di s).2 = [.driverRequest t di] ∧
            (doPickup t ri di s).1.riders = s.riders)
        ∨ (stat s ri = .satisfied ∧ (doPickup t ri di s).2 = [] ∧
            (doPickup t ri di s).1.riders = s.riders)) := by
  rw [doPickup]
  cases hst : (s.riders.getD ri dfltRider).status with
  | waiting =>
    refine ⟨rfl, Or.inl ⟨hst, ⟨_, rfl⟩, ?_⟩⟩
    rfl
  | cancelled => exact ⟨rfl, Or.inr (Or.inl ⟨hst, rfl, rfl⟩)⟩
  | satisfied => exact ⟨rfl, Or.inr (Or.inr ⟨hst, rfl, rfl⟩)⟩

theorem doDropoff_shape (t di ri : Nat) (s : SimState) :
    (doDropoff t di ri s).1.queue = s.queue ∧
      (doDropoff t di ri s).2 = [.driverRequest t di] ∧
      (doDropoff t di ri s).1.riders =
        s.riders.set ri
          { s.riders.getD ri dfltRider with status := .satisfied } :=
  ⟨rfl, rfl, rfl⟩

theorem list_getD_mem {α : Type} (l : List α) {i : Nat} (d : α)
    (h : i < l.length) : l.getD i d ∈ l := by
  induction l generalizing i with
  | nil => simp at h
  | cons b l ih =>
    cases i with
    | zero => exact List.mem_cons_self b l
    | succ i => exact List.mem_cons_of_mem b (ih (by simpa using h))

theorem doEvent_pres (e : Event) (s : SimState) :
    ∀ p, doEvent e s = some p →
      p.1.queue = s.queue ∧ p.1.riders.length = s.riders.length := by
  intro p h
  cases e with
  | riderRequest t ri =>
    obtain ⟨h1, h2, _⟩ := doRiderRequest_shape t ri s p h
    exact ⟨h2, by rw [h1]⟩
  | driverRequest t di =>
    obtain ⟨h1, h2, _⟩ := doDriverRequest_shape t di s
    injection h with h'
    subst h'
    exact ⟨h2, by rw [h1]⟩
  | cancellation t ri =>
    obtain ⟨_, hq, hcases⟩ := doCancellation_shape t ri s
    injection h with h'
    subst h'
    rcases hcases with ⟨_, hr⟩ | ⟨_, hr⟩
    · exact ⟨hq, by rw [hr]⟩
    · exact ⟨hq, by rw [hr]; simp⟩
  | pickup t ri di =>
    obtain ⟨hq, hcases⟩ := doPickup_shape t ri di s
    injection h with h'
    subst h'
    rcases hcases with ⟨_, _, hr⟩ | ⟨_, _, hr⟩ | ⟨_, _, hr⟩
    · exact ⟨hq, by rw [hr]; simp⟩
    · exact ⟨hq, by rw [hr]⟩
    · exact ⟨hq, by rw [hr]⟩
  | dropoff t di ri =>
    obtain ⟨hq, _, hr⟩ := doDropoff_shape t di ri s
    injection h with h'
    subst h'
    exact ⟨hq, by rw [hr]; simp⟩

theorem doEvent_status (e : Event) (s : SimState) :
    ∀ p, doEvent e s = some p →
      (∀ rdi, e.dropRider = some rdi → rdi < s.riders.length →
        stat s rdi = .satisfied) →
      ∀ i, stat p.1 i = stat s i ∨ stat s i = .waiting := by
  intro p h hguard i
  cases e with
  | riderRequest t ri =>
    obtain ⟨h1, _, _⟩ := doRiderRequest_shape t ri s p h
    exact Or.inl (by simp only [stat, h1])
  | driverRequest t di =>
    obtain ⟨h1, _, _⟩ := doDriverRequest_shape t di s
    injection h with h'
    subst h'
    exact Or.inl (by simp only [stat, h1])
  | cancellation t ri =>
    obtain ⟨_, _, hcases⟩ := doCancellation_shape t ri s
    injection h with h'
    subst h'
    rcases hcases with ⟨_, hr⟩ | ⟨hne, hr⟩
    · exact Or.inl (by simp only [stat, hr])
    · by_cases hii : ri = i
      · subst hii
        by_cases hlen : ri < s.riders.length
        · have hnew : stat ((doCancellation t ri s).1) ri =
              RiderStatus.cancelled := by
            simp only [stat, hr]
            rw [list_getD_set_self _ _ _ hlen]
          cases hold : stat s ri with
          | waiting => exact Or.inr rfl
          | cancelled => exact Or.inl (by rw [hnew])
          | satisfied => exact absurd hold hne
        · refine Or.inl ?_
          simp only [stat, hr, list_set_oob _ _ (Nat.le_of_not_lt hlen)]
      · exact Or.inl (by simp only [stat, hr, list_getD_set_ne _ hii])
  | pickup t ri di =>
    obtain ⟨_, hcases⟩ := doPickup_shape t ri di s
    injection h with h'
    subst h'
    rcases hcases with ⟨hw, _, hr⟩ | ⟨_, _, hr⟩ | ⟨_, _, hr⟩
    · by_cases hii : ri = i
      · subst hii
        exact Or.inr hw
      · refine Or.inl ?_
        simp only [stat, hr, list_getD_set_ne _ hii]
    · exact Or.inl (by simp only [stat, hr])
    · exact Or.inl (by simp only [stat, hr])
  | dropoff t di ri =>
    obtain ⟨_, _, hr⟩ := doDropoff_shape t di ri s
    injection h with h'
    subst h'
    by_cases hii : ri = i
    · subst hii
      by_cases hlen : ri < s.riders.length
      · have hold : stat s ri = .satisfied := hguard ri rfl hlen
        refine Or.inl ?_
        simp only [stat, hr]
        rw [list_getD_set_self _ _ _ hlen]
        rw [stat] at hold
        rw [hold]
      · refine Or.inl ?_
        simp only [stat, hr, list_set_oob _ _ (Nat.le_of_not_lt hlen)]
    · exact Or.inl (by simp only [stat, hr, list_getD_set_ne _ hii])

theorem doEvent_satisfied (e : Event) (s : SimState) :
    ∀ p, doEvent e s = some p → ∀ i, stat s i = .satisfied →
      stat p.1 i = .satisfied := by
  intro p h i hsat
  cases e with
  | riderRequest t ri =>
    obtain ⟨h1, _, _⟩ := doRiderRequest_shape t ri s p h
    simpa only [stat, h1] using hsat
  | driverRequest t di =>
    obtain ⟨h1, _, _⟩ := doDriverRequest_shape t di s
    injection h with h'
    subst h'
    simpa only [stat, h1] using hsat
  | cancellation t ri =>
    obtain ⟨_, _, hcases⟩ := doCancellation_shape t ri s
    injection h with h'
    subst h'
    rcases hcases with ⟨_, hr⟩ | ⟨hne, hr⟩
    · simpa only [stat, hr] using hsat
    · by_cases hii : ri = i
      · subst hii
        exact absurd hsat hne
      · simp only [stat, hr, list_getD_set_ne _ hii]
        exact hsat
  | pickup t ri di =>
    obtain ⟨_, hcases⟩ := doPickup_shape t ri di s
    injection h with h'
    subst h'
    rcases hcases with ⟨hw, _, hr⟩ | ⟨_, _, hr⟩ | ⟨_, _, hr⟩
    · by_cases hii : ri = i
      · subst hii
        rw [hw] at hsat
        cases hsat
      · simp only [stat, hr, list_getD_set_ne _ hii]
        exact hsat
    · simpa only [stat, hr] using hsat
    · simpa only [stat, hr] using hsat
  | dropoff t di ri =>
    obtain ⟨_, _, hr⟩ := doDropoff_shape t di ri s
    injection h with h'
    subst h'
    by_cases hii : ri = i
    · subst hii
      by_cases hlen : ri < s.riders.length
      · simp only [stat, hr]
        rw [list_getD_set_self _ _ _ hlen]
      · simp only [stat, hr, list_set_oob _ _ (Nat.le_of_not_lt hlen)]
        exact hsat
    · simp only [stat, hr, list_getD_set_ne _ hii]
      exact hsat

theorem doEvent_newdrops (e : Event) (s : SimState) :
    ∀ p, doEvent e s = some p →
      ∀ e' ∈ p.2, ∀ rdi, e'.dropRider = some rdi →
        rdi < p.1.riders.length → stat p.1 rdi = .satisfied := by
  intro p h e' he' rdi hd hlen
  cases e with
  | riderRequest t ri =>
    obtain ⟨_, _, h3⟩ := doRiderRequest_shape t ri s p h
    rw [h3 e' he'] at hd
    cases hd
  | driverRequest t di =>
    obtain ⟨_, _, h3⟩ := doDriverRequest_shape t di s
    injection h with h'
    subst h'
    rw [h3 e' he'] at hd
    cases hd
  | cancellation t ri =>
    obtain ⟨h0, _, _⟩ := doCancellation_shape t ri s
    injection h with h'
    subst h'
    rw [h0] at he'
    cases he'
  | pickup t ri di =>
    obtain ⟨_, hcases⟩ := doPickup_shape t ri di s
    injection h with h'
    subst h'
    rcases hcases with ⟨_, ⟨tt, hev⟩, hr⟩ | ⟨_, hev, _⟩ | ⟨_, hev, _⟩
    · rw [hev] at he'
      rcases List.mem_singleton.mp he' with rfl
      simp only [Event.dropRider, Option.some.injEq] at hd
      subst hd
      have hlen0 : ri < s.riders.length := by
        rw [hr] at hlen
        simpa using hlen
      simp only [stat, hr]
      rw [list_getD_set_self _ _ _ (by simpa using hlen0)]
    · rw [hev] at he'
      rcases List.mem_singleton.mp he' with rfl
      cases hd
    · rw [hev] at he'
      cases he'
  | dropoff t di ri =>
    obtain ⟨_, hev, _⟩ := doDropoff_shape t di ri s
    injection h with h'
    subst h'
    rw [hev] at he'
    rcases List.mem_singleton.mp he' with rfl
    cases hd

theorem step_shape (s s' : SimState) (h : step s = some s') :
    ∃ e rest p, s.queue = e :: rest ∧
      doEvent e { s with queue := rest } = some p ∧
      s' = { p.1 with
        queue := p.2.foldl
          (fun q ev => PriorityQueue.add Event.timestamp q (some ev))
          p.1.queue } := by
  cases hq : s.queue with
  | nil => rw [step, hq] at h; cases h
  | cons e rest =>
    rw [step, hq] at h
    dsimp only at h
    cases hdo : doEvent e { s with queue := rest } with
    | none => rw [hdo] at h; cases h
    | some p =>
      obtain ⟨p1, p2⟩ := p
      rw [hdo] at h
      dsimp only at h
      injection h with h'
      exact ⟨e, rest, (p1, p2), rfl, hdo, h'.symm⟩

theorem step_mono (s s' : SimState) (hinv : DropInv s)
    (h : step s = some s') :
    ∀ i, stat s' i = stat s i ∨ stat s i = .waiting := by
  obtain ⟨e, rest, p, hq, hdo, hs'⟩ := step_shape s s' h
  intro i
  have hguard : ∀ rdi, e.dropRider = some rdi →
      rdi < ({ s with queue := rest } : SimState).riders.length →
      stat { s with queue := rest } rdi = .satisfied := by
    intro rdi hd hlen
    exact hinv e (by rw [hq]; exact List.mem_cons_self e rest) rdi hd hlen
  have hst := doEvent_status e { s with queue := rest } p hdo hguard i
  rw [hs']
  exact hst

theorem step_inv (s s' : SimState) (hinv : DropInv s)
    (h : step s = some s') : DropInv s' := by
  obtain ⟨e, rest, p, hq, hdo, hs'⟩ := step_shape s s' h
  intro e' he' rdi hd hlen
  obtain ⟨hpq, hplen⟩ := doEvent_pres e { s with queue := rest } p hdo
  have hlen1 : rdi < p.1.riders.length := by
    rw [hs'] at hlen
    exact hlen
  have hlen0 : rdi < s.riders.length := by
    rw [hplen] at hlen1
    exact hlen1
  rw [hs'] at he'
  rcases mem_foldl_add Event.timestamp p.2 p.1.queue e' he' with hin | hin
  · have he's : e' ∈ s.queue := by
      rw [hq]
      refine List.mem_cons_of_mem _ ?_
      rw [hpq] at hin
      exact hin
    have hold : stat s rdi = .satisfied := hinv e' he's rdi hd hlen0
    have := doEvent_satisfied e { s with queue := rest } p hdo rdi hold
    rw [hs']
    exact this
  · have := doEvent_newdrops e { s with queue := rest } p hdo e' hin rdi hd
      hlen1
    rw [hs']
    exact this

theorem reach_inv (a s : SimState) (hinit : InitState a)
    (hr : Relation.ReflTransGen stepRel a s) : DropInv s := by
  induction hr with
  | refl =>
    intro e he rdi hd _
    have hreq := hinit.1 e he
    cases e <;> simp [Event.isRequest] at hreq <;> cases hd
  | tail _ hbc ih => exact step_inv _ _ ih hbc

/-- C9: in every reachable execution from an initial state (queue of
parsed requests, all riders `WAITING`), every rider's status starts
`WAITING` and each engine step either leaves the status value unchanged or
moves it away from `WAITING`; hence a status can change at most once, to
`CANCELLED` or `SATISFIED`, and a terminal status never reverts. -/
theorem c9_status_monotonic (a s s' : SimState) (hinit : InitState a)
    (hr : Relation.ReflTransGen stepRel a s) (hs : step s = some s')
    (i : Nat) :
    stat a i = .waiting ∧ (stat s' i = stat s i ∨ stat s i = .waiting) := by
  constructor
  · by_cases hlen : i < a.riders.length
    · exact hinit.2 _ (list_getD_mem a.riders dfltRider hlen)
    · show (a.riders.getD i dfltRider).status = _
      rw [List.getD_eq_getElem?_getD,
        List.getElem?_eq_none (Nat.le_of_not_lt hlen)]
      rfl
  · exact step_mono s s' (reach_inv a s hinit hr) hs i

/-- C9 witness: one queued rider request, no drivers; one step executes
it. -/
theorem c9_witness :
    stat cw9 0 = .waiting ∧
      (stat cw9s1 0 = stat cw9 0 ∨ stat cw9 0 = .waiting) :=
  c9_status_monotonic cw9 cw9 cw9s1 ⟨by decide, by decide⟩
    Relation.ReflTransGen.refl (by decide) 0

end RideShare
